import Mathlib

/-
Verification of the CGBank demo assistant (src/cra.py, src/bank.py).

Shallow embedding conventions:
- Python floats (currency amounts) are modelled as rationals (ℚ); datetimes as
  integers (days); `datetime.now()` and random choices are passed in explicitly
  as environment parameters.
- `st.session_state` and the global BANK_DATA document are modelled as explicit
  state records that every operation threads through.
- External collaborators (Streamlit rendering, PDF generation, the Ollama
  responder, number/date formatting) are injected as opaque functions in an
  environment record; the control flow that decides which collaborator runs is
  embedded faithfully.
- `difflib.get_close_matches` / `SequenceMatcher.ratio` are embedded below for
  the no-junk case (both inputs shorter than 200 characters, which holds for
  every keyword and message considered): the similarity is 2*M/T where M is the
  total size of the matching blocks found by the recursive longest-match
  algorithm and T the sum of the lengths.
-/

set_option maxRecDepth 200000

namespace CGBank

/-! ### Python string primitives -/

/-- The character sequence of a string (kept as its own definition so that
statements and proofs mention it uniformly). -/
def chars (s : String) : List Char := s.data

/-- Python `needle in hay` (raw substring containment). -/
def strContains (hay needle : List Char) : Bool :=
  (List.range (hay.length + 1)).any (fun i => needle.isPrefixOf (hay.drop i))

/-- Python regex word character (`\w` over the ASCII texts involved). -/
def isWordChar (c : Char) : Bool := c.isAlphanum || c == '_'

def wordCharAt (s : List Char) (i : Nat) : Bool :=
  match s.get? i with
  | some c => isWordChar c
  | none => false

/-- Python regex `\b` matches between positions i-1 and i iff exactly one side
is a word character (positions outside the string count as non-word). -/
def boundaryAt (s : List Char) (i : Nat) : Bool :=
  (decide (0 < i) && wordCharAt s (i - 1)) != wordCharAt s i

/-- Success of Python `re.search` on the pattern built from the escaped keyword: the literal
keyword occurs at some position with a word boundary on each side. -/
def wholeWordMatch (msg kw : List Char) : Bool :=
  (List.range (msg.length + 1)).any (fun i =>
    kw.isPrefixOf (msg.drop i) && boundaryAt msg i && boundaryAt msg (i + kw.length))

/-- Python `str.lower()` over the ASCII texts involved (kept kernel-reducible
by mapping over the character list). -/
def strLower (s : String) : String := String.mk (s.data.map Char.toLower)

/-- Python string `<` (lexicographic by code point). -/
def pyStrLt : List Char → List Char → Bool
  | [], [] => false
  | [], _ :: _ => true
  | _ :: _, [] => false
  | a :: as, b :: bs =>
    if a.toNat < b.toNat then true
    else if b.toNat < a.toNat then false
    else pyStrLt as bs

/-! ### difflib.SequenceMatcher (no junk, autojunk inactive for short seq2)
The index-range recursion of difflib is rendered here on list slices: the
subranges a[alo:i], a[i+k:ahi] of the source become take/drop slices, and
find_longest_match scans the suffixes of the two slices in order. -/

/-- Length of the common prefix run of two suffixes. -/
def runLenHead : List Char → List Char → Nat
  | x :: xs, y :: ys => if x = y then runLenHead xs ys + 1 else 0
  | _, _ => 0

/-- Inner scan of `find_longest_match`: all suffixes of `b` (j ascending)
against the fixed suffix `sa` of `a` at index `i`; strict improvement keeps
the earliest longest match. -/
def flScanB (sa : List Char) (i : Nat) : List Char → Nat → Nat × Nat × Nat →
    Nat × Nat × Nat
  | [], _, best => best
  | y :: ys, j, best =>
    let k := runLenHead sa (y :: ys)
    match (if best.2.2 < k then (i, j, k) else best) with
    | (bi, bj, bk) => flScanB sa i ys (j + 1) (bi, bj, bk)

/-- Outer scan of `find_longest_match`: all suffixes of `a`, i ascending. -/
def flScanA (b : List Char) : List Char → Nat → Nat × Nat × Nat → Nat × Nat × Nat
  | [], _, best => best
  | x :: xs, i, best =>
    match flScanB (x :: xs) i b 0 best with
    | (bi, bj, bk) => flScanA b xs (i + 1) (bi, bj, bk)

/-- difflib `SequenceMatcher.find_longest_match` with no junk: longest common
substring, ties resolved to the smallest start in `a`, then the smallest
start in `b` (scan order with strict improvement). -/
def findLongestL (a b : List Char) : Nat × Nat × Nat := flScanA b a 0 (0, 0, 0)

/-- Total size of matching blocks (`sum of k over get_matching_blocks`); the
fuel dominates the recursion depth, which is bounded by the slice sizes. -/
def matchTotalL : Nat → List Char → List Char → Nat
  | 0, _, _ => 0
  | fuel + 1, a, b =>
    let t := findLongestL a b
    if t.2.2 = 0 then 0
    else
      matchTotalL fuel (a.take t.1) (b.take t.2.1) + t.2.2 +
        matchTotalL fuel (a.drop (t.1 + t.2.2)) (b.drop (t.2.1 + t.2.2))

/-- difflib `SequenceMatcher(None, a, b).ratio()` as an exact rational: 2*M/T.
difflib returns 1.0 when both sequences are empty. -/
def difflibSim (a b : List Char) : ℚ :=
  if a.length + b.length = 0 then 1
  else (2 * (matchTotalL (a.length + b.length + 2) a b) : ℚ) /
    ((a.length : ℚ) + (b.length : ℚ))

/-- Core of `difflib.get_close_matches(word, cands, n=1, cutoff)`: keeps the
candidate with the greatest (ratio, string) pair among those with ratio at
least the cutoff (heapq.nlargest on (score, x) tuples breaks score ties by the
lexicographically greater string).  The real function additionally pre-filters
with real_quick_ratio and quick_ratio, both documented upper bounds of ratio,
so the acceptance condition is equivalent to ratio ≥ cutoff. -/
def bcAux (sim : List Char → List Char → ℚ) (cutoff : ℚ) (word : List Char)
    (acc : Option (ℚ × String)) : List String → Option (ℚ × String)
  | [] => acc
  | x :: xs =>
    let r := sim (chars x) word
    if cutoff ≤ r then
      match acc with
      | none => bcAux sim cutoff word (some (r, x)) xs
      | some (br, bx) =>
        if br < r ∨ (br = r ∧ pyStrLt (chars bx) (chars x) = true) then
          bcAux sim cutoff word (some (r, x)) xs
        else
          bcAux sim cutoff word (some (br, bx)) xs
    else bcAux sim cutoff word acc xs

def bestClose (sim : List Char → List Char → ℚ) (cutoff : ℚ) (word : List Char)
    (cands : List String) : Option (ℚ × String) :=
  bcAux sim cutoff word none cands

/-! ### RexaBot keyword table and intent classifier -/

/-- The table `RexaBot.service_keywords`, an insertion-ordered dict in the source
(Python 3.7+ preserves declaration order).  The final entry of
`monthly_report` reproduces the source's missing comma, which concatenates
two adjacent string literals. -/
def serviceKeywords : List (String × List String) :=
  [("balance_inquiry",
    ["balance", "account balance", "how much money", "check balance",
     "current balance", "what do i have", "funds available", "available balance",
     "remaining balance", "account summary"]),
   ("transaction_history",
    ["transaction", "history", "statement", "recent transactions",
     "last transactions", "past payments", "my spending", "past expenses",
     "payment history", "transaction details", "transaction summary"]),
   ("fund_transfer",
    ["transfer", "send money", "transfer money", "transfer funds",
     "move money", "pay someone", "send to friend", "wire transfer",
     "remit", "send cash"]),
   ("bill_payment",
    ["pay bill", "bill payment", "utility bill", "electricity bill",
     "water bill", "gas bill", "phone bill", "internet bill",
     "credit card bill", "mobile recharge"]),
   ("bank_info",
    ["about cgbank", "bank information", "bank details", "what is cgbank",
     "bank services", "products offered", "bank features", "branch locations",
     "contact bank", "bank timings"]),
   ("loan_info",
    ["loan", "borrow", "credit", "home loan", "personal loan", "car loan",
     "education loan", "interest rates", "eligibility", "how to apply",
     "mortgage", "vehicle loan", "student loan"]),
   ("scheme_info",
    ["modi scheme", "pm farmer scheme", "thangamagal scheme", "government scheme",
     "scheme details", "scheme information", "subsidy", "farmer benefits",
     "women benefits", "agricultural scheme"]),
   ("account_info",
    ["account", "account type", "student account", "nri account", "senior account",
     "how to open new acc", "account types", "new account", "create account",
     "open account", "account opening", "how to create account"]),
   ("monthly_report",
    ["monthly report", "monthly statement", "monthly summary",
     "monthly transactions", "monthly spending", "monthly analysis",
     "account statementreport for month", "statement for month"])]

/-- The keyword list of the monthly_report category, as declared above. -/
def monthlyKeywords : List String :=
  ["monthly report", "monthly statement", "monthly summary",
   "monthly transactions", "monthly spending", "monthly analysis",
   "account statementreport for month", "statement for month"]

/-- Some keyword phrase of the category occurs whole-word in the message. -/
def exactHit (m : List Char) (kws : List String) : Bool :=
  kws.any (fun kw => wholeWordMatch m (chars kw))

def allKeywords (tbl : List (String × List String)) : List String :=
  (tbl.map (·.2)).flatten

/-- Embedding of `RexaBot._identify_intent`, parameterized by the similarity function and
the keyword table: lowercase, first category with a whole-word keyword hit,
else the owning category of the best fuzzy keyword match at cutoff 0.6. -/
def identifyIntentCore (sim : List Char → List Char → ℚ)
    (tbl : List (String × List String)) (message : String) : Option String :=
  let m := chars (strLower message)
  match tbl.find? (fun p => exactHit m p.2) with
  | some p => some p.1
  | none =>
    match (bestClose sim (3 / 5) m (allKeywords tbl)).map (·.2) with
    | none => none
    | some kw => (tbl.find? (fun p => p.2.contains kw)).map (·.1)

/-- The classifier of the program: the core at the difflib similarity and the
declared keyword table. -/
def identify_intent (message : String) : Option String :=
  identifyIntentCore difflibSim serviceKeywords message

/-! ### SHA-256 (hashlib.sha256, for CGBankDatabase.hash_password)
Words are naturals reduced mod 2^32; inputs here are ASCII, so Python's
UTF-8 `.encode()` is the code-point byte sequence. -/

def w32 (x : Nat) : Nat := x % 4294967296

def wadd (x y : Nat) : Nat := (x + y) % 4294967296

def wnot (x : Nat) : Nat := 4294967295 - x % 4294967296

def rotr (n x : Nat) : Nat := w32 ((x >>> n) ||| (x <<< (32 - n)))

def s0 (x : Nat) : Nat := rotr 7 x ^^^ rotr 18 x ^^^ (x >>> 3)

def s1 (x : Nat) : Nat := rotr 17 x ^^^ rotr 19 x ^^^ (x >>> 10)

def e0 (x : Nat) : Nat := rotr 2 x ^^^ rotr 13 x ^^^ rotr 22 x

def e1 (x : Nat) : Nat := rotr 6 x ^^^ rotr 11 x ^^^ rotr 25 x

def chF (x y z : Nat) : Nat := (x &&& y) ^^^ (wnot x &&& z)

def majF (x y z : Nat) : Nat := (x &&& y) ^^^ (x &&& z) ^^^ (y &&& z)

/-- The 64 SHA-256 round constants, written in decimal. -/
def sha256K : List Nat :=
  [1116352408, 1899447441, 3049323471, 3921009573, 961987163,
   1508970993, 2453635748, 2870763221, 3624381080, 310598401,
   607225278, 1426881987, 1925078388, 2162078206, 2614888103,
   3248222580, 3835390401, 4022224774, 264347078, 604807628,
   770255983, 1249150122, 1555081692, 1996064986, 2554220882,
   2821834349, 2952996808, 3210313671, 3336571891, 3584528711,
   113926993, 338241895, 666307205, 773529912, 1294757372,
   1396182291, 1695183700, 1986661051, 2177026350, 2456956037,
   2730485921, 2820302411, 3259730800, 3345764771, 3516065817,
   3600352804, 4094571909, 275423344, 430227734, 506948616,
   659060556, 883997877, 958139571, 1322822218, 1537002063,
   1747873779, 1955562222, 2024104815, 2227730452, 2361852424,
   2428436474, 2756734187, 3204031479, 3329325298]

/-- The eight SHA-256 initial hash words, written in decimal. -/
def sha256H0 : List Nat :=
  [1779033703, 3144134277, 1013904242, 2773480762,
   1359893119, 2600822924, 528734635, 1541459225]

def scheduleStep (w : List Nat) : List Nat :=
  let n := w.length
  w ++ [wadd (wadd (s1 (w.getD (n - 2) 0)) (w.getD (n - 7) 0))
          (wadd (s0 (w.getD (n - 15) 0)) (w.getD (n - 16) 0))]

def iterApp (f : List Nat → List Nat) : Nat → List Nat → List Nat
  | 0, a => a
  | n + 1, a => iterApp f n (f a)

def schedule (block : List Nat) : List Nat := iterApp scheduleStep 48 block

def compressStep (st : List Nat) (kw : Nat × Nat) : List Nat :=
  match st with
  | [a, b, c, d, e, f, g, h] =>
    let t1 := wadd h (wadd (e1 e) (wadd (chF e f g) (wadd kw.1 kw.2)))
    let t2 := wadd (e0 a) (majF a b c)
    [wadd t1 t2, a, b, c, wadd d t1, e, f, g]
  | other => other

def processBlock (h : List Nat) (block : List Nat) : List Nat :=
  let st := (sha256K.zip (schedule block)).foldl compressStep h
  (h.zip st).map (fun p => wadd p.1 p.2)

def chunkByAux (n : Nat) : Nat → List Nat → List (List Nat)
  | 0, _ => []
  | fuel + 1, l =>
    if l = [] ∨ n = 0 then []
    else l.take n :: chunkByAux n fuel (l.drop n)

def chunkBy (n : Nat) (l : List Nat) : List (List Nat) :=
  chunkByAux n (l.length + 1) l

/-- Merkle–Damgård padding: 0x80, zeros to 56 mod 64, 8-byte big-endian
bit length. -/
def padBytes (msg : List Nat) : List Nat :=
  let L := msg.length
  let k := (64 + 55 - (L % 64)) % 64
  msg ++ [128] ++ List.replicate k 0 ++
    (List.range 8).map (fun i => ((8 * L) >>> (8 * (7 - i))) % 256)

def wordsOfBytes (bytes : List Nat) : List Nat :=
  (chunkBy 4 bytes).map (fun c => c.foldl (fun acc b => acc * 256 + b) 0)

def sha256Words (msgBytes : List Nat) : List Nat :=
  (chunkBy 16 (wordsOfBytes (padBytes msgBytes))).foldl processBlock sha256H0

def hexDigit (n : Nat) : Char :=
  if n < 10 then Char.ofNat (48 + n) else Char.ofNat (87 + n)

def word8Hex (w : Nat) : List Char :=
  (List.range 8).map (fun i => hexDigit ((w >>> (4 * (7 - i))) % 16))

/-- Embedding of `hashlib.sha256(ascii).hexdigest()`. -/
def sha256Hex (s : String) : String :=
  String.mk ((sha256Words (s.toList.map Char.toNat)).flatMap word8Hex)

/-- Embedding of `CGBankDatabase.hash_password`: SHA-256 of password + fixed salt. -/
def hash_password (password : String) : String :=
  sha256Hex (password ++ "CGBank_Salt_Value_123!")

/-! ### Ledger store (CGBankDatabase over BANK_DATA and st.session_state)
Currency amounts are rationals, datetimes are integers (days).  The JSON file
written by `_save_data` is the `disk` component; a failing save (the except
branch) leaves the file contents unmodelled, hence `disk` unchanged, and
returns false. -/

structure Txn where
  date : Int
  description : String
  amount : ℚ
  balance : ℚ
deriving Repr, DecidableEq

structure UserData where
  name : String
  password : String
  balance : ℚ
deriving Repr, DecidableEq

structure BillData where
  name : String
  amount : ℚ
  due : String
  status : String
deriving Repr, DecidableEq

structure DiskImage where
  users : List (String × UserData)
  bills : List BillData
  txnHistory : List (String × ℚ)
deriving Repr, DecidableEq

/-- BANK_DATA (users, bills, transactions_history) plus the session cache
`st.session_state.transactions` and the persisted JSON file. -/
structure BankState where
  users : List (String × UserData)
  bills : List BillData
  txnHistory : List (String × ℚ)
  sessionTxns : List Txn
  disk : Option DiskImage
deriving Repr, DecidableEq

/-- Embedding of `CGBankDatabase.get_user`: first user whose key matches case-insensitively. -/
def get_user (users : List (String × UserData)) (username : String) : Option UserData :=
  (users.find? (fun p => strLower p.1 == strLower username)).map (·.2)

/-- Embedding of `CGBankDatabase.verify_user`: false when absent, else a direct comparison
of the stored credential string with the supplied secret (no hashing). -/
def verify_user (users : List (String × UserData)) (username password : String) : Bool :=
  match get_user users username with
  | none => false
  | some u => u.password == password

/-- Embedding of `CGBankDatabase._save_data`: on success the whole in-memory document is
rewritten to disk; on failure it reports false. -/
def save_data (ok : Bool) (s : BankState) : BankState × Bool :=
  if ok then ({ s with disk := some ⟨s.users, s.bills, s.txnHistory⟩ }, true)
  else (s, false)

/-- Embedding of `CGBankDatabase.get_user_transactions`: the session cache when nonempty,
otherwise the freshly synthesized history `synth` (random backdating in the
source, injected here), which is also stored into the cache. -/
def get_user_transactions (synth : List Txn) (s : BankState) (username : String) :
    List Txn × BankState :=
  match get_user s.users username with
  | none => ([], s)
  | some _ =>
    if s.sessionTxns = [] then (synth, { s with sessionTxns := synth })
    else (s.sessionTxns, s)

/-- The write `user['balance'] = newBal` through the reference returned by get_user:
updates the first case-insensitive match. -/
def updateUserBalance (users : List (String × UserData)) (username : String)
    (newBal : ℚ) : List (String × UserData) :=
  match users with
  | [] => []
  | p :: rest =>
    if strLower p.1 == strLower username then (p.1, { p.2 with balance := newBal }) :: rest
    else p :: updateUserBalance rest username newBal

/-- Per-call environment: the synthesized history, `datetime.now()`, and the
outcome of the JSON write attempted by `_save_data`. -/
structure TxnEnv where
  synth : List Txn
  now : Int
  saveOk : Bool
deriving Repr, DecidableEq

/-- Embedding of `CGBankDatabase.add_transaction` (cra.py): unconditionally creates the
transaction with snapshot balance + amount, inserts it at the head of the
session list, updates the user balance and BANK_DATA history, and saves.
There is no insufficient-funds check in this function. -/
def add_transaction (env : TxnEnv) (s : BankState) (username description : String)
    (amount : ℚ) : BankState × Bool :=
  match get_user s.users username with
  | none => (s, false)
  | some u =>
    let pair := get_user_transactions env.synth s username
    let newTxn : Txn := ⟨env.now, description, amount, u.balance + amount⟩
    save_data env.saveOk
      { pair.2 with
        users := updateUserBalance pair.2.users username (u.balance + amount),
        txnHistory := pair.2.txnHistory ++ [(description, amount)],
        sessionTxns := newTxn :: pair.1 }

/-- Embedding of `CGBankDatabase.add_bill_payment`: debit via add_transaction (which itself
saves), then remove the matching bills and save again. -/
def add_bill_payment (env : TxnEnv) (saveOk2 : Bool) (s : BankState)
    (username billName : String) (amount : ℚ) : BankState × Bool :=
  match get_user s.users username with
  | none => (s, false)
  | some _ =>
    let r := add_transaction env s username ("Bill Payment: " ++ billName) (-amount)
    if r.2 = false then (r.1, false)
    else
      save_data saveOk2 { r.1 with bills := r.1.bills.filter (fun b => b.name != billName) }

/-! ### Report builder (RexaBot._generate_monthly_report) -/

structure Report where
  startDate : Int
  endDate : Int
  totalTransactions : Nat
  totalCredit : ℚ
  totalDebit : ℚ
  netChange : ℚ
  transactions : List Txn
deriving Repr, DecidableEq

/-- The pure aggregation inside `_generate_monthly_report`: keep transactions
dated on or after now - 30 (there is no upper-bound test in the source),
credit = sum of positive amounts, debit = |sum of negative amounts|. -/
def buildReport (now : Int) (txns : List Txn) : Option Report :=
  if txns = [] then none
  else
    let lastMonth := now - 30
    let filtered := txns.filter (fun t => decide (lastMonth ≤ t.date))
    if filtered = [] then none
    else
      let totalCredit := ((filtered.filter (fun t => decide (0 < t.amount))).map (·.amount)).sum
      let totalDebit := |((filtered.filter (fun t => decide (t.amount < 0))).map (·.amount)).sum|
      some ⟨lastMonth, now, filtered.length, totalCredit, totalDebit,
        totalCredit - totalDebit, filtered⟩

/-- Embedding of `RexaBot._generate_monthly_report`: reads the user's transactions (which
may populate the session cache) and aggregates them. -/
def generate_monthly_report (synth : List Txn) (now : Int) (s : BankState)
    (username : String) : Option Report × BankState :=
  let pair := get_user_transactions synth s username
  (buildReport now pair.1, pair.2)

/-- One add_transaction invocation in a call sequence: its target account,
payload, wall-clock time, and persistence outcome. -/
structure TxnCall where
  username : String
  description : String
  amount : ℚ
  now : Int
  saveOk : Bool
deriving Repr, DecidableEq

/-- A finite sequence of add_transaction calls, folded over the store. -/
def applyCalls (synth : List Txn) (s : BankState) (calls : List TxnCall) : BankState :=
  calls.foldl (fun st c =>
    (add_transaction ⟨synth, c.now, c.saveOk⟩ st c.username c.description c.amount).1) s

/-- The signed amounts of the calls that hit the account keyed `tname`
(case-insensitively); calls whose username resolves to no account are the
rejected ones and contribute nothing. -/
def appliedAmounts (tname : String) (calls : List TxnCall) : List ℚ :=
  (calls.filter (fun c => strLower tname == strLower c.username)).map (fun c => c.amount)

/-- Newest-first order: each transaction's timestamp is ≥ the next one's. -/
def sortedDesc (l : List Txn) : Prop := l.Chain' (fun a b => b.date ≤ a.date)

/-! ### Dialogue engine (RexaBot.process_message) -/

/-- Collaborator outputs injected into the dialogue engine: canned/random
response texts, catalog/formatting renderers, the Ollama responder, and the
PDF + download-link pipeline (None on generation failure). -/
structure BotEnv where
  synth : List Txn
  now : Int
  greetingResp : String
  thanksResp : String
  balanceResp : ℚ → String
  fundTransferResp : String
  billPaymentResp : String
  bankInfoResp : String → String
  loanInfoResp : String → String
  accountInfoResp : String → String
  schemeInfoResp : String → String
  transactionListResp : List Txn → String
  ollamaResp : String → Option UserData → String
  makePdf : String → Report → Option String
  fmtMoney : ℚ → String
  fmtDate : Int → String

/-- Session state seen by the bot: the bank document plus
`st.session_state.download_link`.  The app initializes the key to None on
every rerun, so the `'download_link' in st.session_state` tests in the
source are always true; `none` here models the key holding Python None,
which an f-string renders as "None". -/
structure DialogState where
  bank : BankState
  downloadLink : Option String

def greetWords : List String :=
  ["hello", "hi", "hey", "good morning", "good afternoon", "good evening"]

def thanksWords : List String := ["thank", "thanks", "appreciate"]

def affirmTokens : List String := ["yes", "y", "download", "download report"]

def negTokens : List String := ["no", "n", "cancel"]

def linkStr : Option String → String
  | some l => l
  | none => "None"

def reportSummary (env : BotEnv) (r : Report) : String :=
  "**📊 Monthly Report (" ++ env.fmtDate r.startDate ++ " to " ++
    env.fmtDate r.endDate ++ ")**\n\n**Total Transactions:** " ++
    toString r.totalTransactions ++ "\n**Total Credit:** ₹" ++
    env.fmtMoney r.totalCredit ++ "\n**Total Debit:** ₹" ++
    env.fmtMoney r.totalDebit ++ "\n**Net Change:** ₹" ++
    env.fmtMoney r.netChange ++
    "\n\nYour PDF report is ready! Would you like to download it now? (Yes/No)"

/-- Embedding of `RexaBot.process_message`: lowercase, then in order: greeting substring
check, thanks substring check, monthly_report intent, affirmative download
tokens, negative tokens, then the intent dispatch; the fallback is the
Ollama responder. -/
def process_message (env : BotEnv) (st : DialogState) (username : Option String)
    (message : String) : String × DialogState :=
  let m := strLower message
  let userData := match username with
    | none => none
    | some u => get_user st.bank.users u
  let intent := identify_intent m
  if greetWords.any (fun w => strContains (chars m) (chars w)) then
    match userData with
    | some u => ("Hello " ++ u.name ++ "! " ++ env.greetingResp, st)
    | none => (env.greetingResp, st)
  else if thanksWords.any (fun w => strContains (chars m) (chars w)) then
    (env.thanksResp, st)
  else if intent == some "monthly_report" then
    match username, userData with
    | some uname, some _ =>
      let pair := generate_monthly_report env.synth env.now st.bank uname
      match pair.1 with
      | none =>
        ("You don\x27t have any transactions in the last month to generate a report.",
          { st with bank := pair.2 })
      | some r =>
        match env.makePdf uname r with
        | some link =>
          (reportSummary env r, { bank := pair.2, downloadLink := some link })
        | none =>
          ("I couldn\x27t generate the PDF report. Please try again later.",
            { st with bank := pair.2 })
    | _, _ => ("Please log in to view your monthly report.", st)
  else if affirmTokens.contains m then
    ("Here\x27s your download link:\n\n" ++ linkStr st.downloadLink,
      { st with downloadLink := none })
  else if negTokens.contains m then
    ("Monthly report download cancelled. Let me know if you need anything else!",
      { st with downloadLink := none })
  else if intent == some "balance_inquiry" then
    match userData with
    | some u => (env.balanceResp u.balance, st)
    | none => ("Please log in to check your account balance.", st)
  else if intent == some "transaction_history" then
    match username, userData with
    | some uname, some _ =>
      let pair := get_user_transactions env.synth st.bank uname
      if pair.1.take 5 = [] then
        ("You don\x27t have any transactions yet.", { st with bank := pair.2 })
      else (env.transactionListResp (pair.1.take 5), { st with bank := pair.2 })
    | _, _ => ("Please log in to view your transaction history.", st)
  else if intent == some "fund_transfer" then
    match userData with
    | some _ => (env.fundTransferResp, st)
    | none => ("Please log in to initiate a fund transfer.", st)
  else if intent == some "bill_payment" then
    match userData with
    | some _ => (env.billPaymentResp, st)
    | none => ("Please log in to pay your bills.", st)
  else if intent == some "bank_info" then (env.bankInfoResp m, st)
  else if intent == some "loan_info" then (env.loanInfoResp m, st)
  else if intent == some "account_info" then (env.accountInfoResp m, st)
  else if intent == some "scheme_info" then (env.schemeInfoResp m, st)
  else (env.ollamaResp m userData, st)

/-! ### Concrete states used by counterexamples and evaluations -/

def c7Env : BotEnv :=
  ⟨[], 100, "G", "T", (fun _ => "B"), "F", "P", (fun _ => "BI"), (fun _ => "L"),
    (fun _ => "A"), (fun _ => "S"), (fun _ => "TL"), (fun _ _ => "O"),
    (fun _ _ => some "LINK2"), (fun _ => "m"), (fun _ => "d")⟩

def c7Bank : BankState :=
  { users := [("alice", ⟨"Alice", "pw", 100⟩)], bills := [], txnHistory := [],
    sessionTxns := [⟨95, "Salary", 50, 100⟩], disk := none }

def c7State : DialogState := ⟨c7Bank, some "LINK1"⟩

def c1Bank : BankState :=
  { users := [("alice", ⟨"Alice", "pw", 100⟩)], bills := [], txnHistory := [],
    sessionTxns := [⟨0, "seed", 0, 100⟩], disk := none }

def c2Bank : BankState :=
  { users := [("alice", ⟨"Alice", "pw", 100⟩)],
    bills := [⟨"Electric", 60, "2025-01-01", "Due Soon"⟩],
    txnHistory := [], sessionTxns := [⟨0, "seed", 0, 100⟩], disk := none }

def c3Users : List (String × UserData) :=
  [("alice", ⟨"Alice", hash_password "pw", 1000⟩)]

def c10Bank : BankState :=
  { users := [("alice", ⟨"Alice", "pw", 100⟩)], bills := [], txnHistory := [],
    sessionTxns := [], disk := none }

def c10Env : BotEnv :=
  ⟨[], 100, "G", "T", (fun _ => "B"), "F", "P", (fun _ => "BI"), (fun _ => "L"),
    (fun _ => "A"), (fun _ => "S"), (fun _ => "TL"), (fun _ _ => "O"),
    (fun _ _ => some "PDF"), (fun _ => "m"), (fun _ => "d")⟩

def c10State : DialogState := ⟨c10Bank, none⟩

/-! ### Claim theorems -/

/-- C1 counterexample: with balance 100 and signed amount -300 (so
balance + amount = -200 < 0), add_transaction does not reject: it reports
success, sets the balance to -200, and prepends the overdrawing
transaction — refuting the claim that such a call is rejected with no
change. -/
theorem c1_overdraft_counterexample :
    (add_transaction ⟨[], 5, true⟩ c1Bank "alice" "X" (-300)).2 = true ∧
    get_user (add_transaction ⟨[], 5, true⟩ c1Bank "alice" "X" (-300)).1.users "alice" =
      some ⟨"Alice", "pw", -200⟩ ∧
    (add_transaction ⟨[], 5, true⟩ c1Bank "alice" "X" (-300)).1.sessionTxns =
      ⟨5, "X", -300, -200⟩ :: c1Bank.sessionTxns ∧
    (add_transaction ⟨[], 5, true⟩ c1Bank "alice" "X" (-300)).1.disk =
      some ⟨[("alice", ⟨"Alice", "pw", -200⟩)], [], [("X", -300)]⟩ := by
  with_unfolding_all decide

/-- C2 counterexample: when the persistence step of the debit fails
(saveOk = false), add_bill_payment reports failure yet the in-memory
balance is already debited (100 → 40) and the transaction is already
prepended, while the bill stays pending — refuting atomicity of the
in-memory state under persistence failure. -/
theorem c2_atomicity_counterexample :
    (add_bill_payment ⟨[], 5, false⟩ true c2Bank "alice" "Electric" 60).2 = false ∧
    get_user (add_bill_payment ⟨[], 5, false⟩ true c2Bank "alice" "Electric" 60).1.users
      "alice" = some ⟨"Alice", "pw", 40⟩ ∧
    (add_bill_payment ⟨[], 5, false⟩ true c2Bank "alice" "Electric" 60).1.sessionTxns =
      ⟨5, "Bill Payment: Electric", -60, 40⟩ :: c2Bank.sessionTxns ∧
    (add_bill_payment ⟨[], 5, false⟩ true c2Bank "alice" "Electric" 60).1.bills =
      c2Bank.bills ∧
    (add_bill_payment ⟨[], 5, false⟩ true c2Bank "alice" "Electric" 60).1.disk = none := by
  with_unfolding_all decide

/-- C3 (code bug evaluation): for an account whose stored credential is the
salted hash of the secret "pw" — exactly what the account-creation flow
stores — verify_user rejects the correct secret, because it compares the
raw secret to the stored string instead of hashing it; the second conjunct
pins the salted hash of the supplied secret, which does equal the stored
credential. -/
theorem c3_verify_user_plaintext_eval :
    verify_user c3Users "alice" "pw" = false ∧
    hash_password "pw" =
      "626019e3607d0b574de8d86a32c7d3c94f76c43bfc4defbed2258e0cc4da4cee" := by
  exact ⟨rfl, rfl⟩

/-- C6: intent classification is deterministic — two runs of the classifier
on the same input text, against the program's fixed keyword table, always
produce the same intent (or both produce none). -/
theorem c6_classifier_deterministic :
    ∀ (message : String) (r₁ r₂ : Option String),
      identify_intent message = r₁ → identify_intent message = r₂ → r₁ = r₂ := by
  intro m r₁ r₂ h₁ h₂
  rw [← h₁, ← h₂]

theorem c6_classifier_deterministic_witness :
    identify_intent "i want to transfer money" = some "fund_transfer" :=
  c6_classifier_deterministic "i want to transfer money"
    (identify_intent "i want to transfer money") (some "fund_transfer") rfl rfl

/-! ### Behaviour of the fuzzy-fallback fold (difflib.get_close_matches core) -/

lemma bcAux_all_low (sim : List Char → List Char → ℚ) (cutoff : ℚ) (word : List Char) :
    ∀ (cands : List String) (acc : Option (ℚ × String)),
      (∀ x ∈ cands, sim (chars x) word < cutoff) →
      bcAux sim cutoff word acc cands = acc := by
  intro cands
  induction cands with
  | nil => intro acc _; rfl
  | cons x xs ih =>
    intro acc hlow
    have hx : sim (chars x) word < cutoff := hlow x (List.mem_cons_self x xs)
    have hxs : ∀ y ∈ xs, sim (chars y) word < cutoff :=
      fun y hy => hlow y (List.mem_cons_of_mem x hy)
    simp only [bcAux, not_le.mpr hx, if_false]
    exact ih acc hxs

lemma bcAux_eq_none (sim : List Char → List Char → ℚ) (cutoff : ℚ) (word : List Char) :
    ∀ (cands : List String) (acc : Option (ℚ × String)),
      bcAux sim cutoff word acc cands = none →
      acc = none ∧ ∀ x ∈ cands, sim (chars x) word < cutoff := by
  intro cands
  induction cands with
  | nil =>
    intro acc h
    exact ⟨h, by simp⟩
  | cons x xs ih =>
    intro acc h
    by_cases hcut : cutoff ≤ sim (chars x) word
    · exfalso
      rcases acc with _ | ⟨br, bx⟩
      · have := (ih (some (sim (chars x) word, x)) (by simpa [bcAux, hcut] using h)).1
        exact Option.noConfusion this
      · by_cases hrep : br < sim (chars x) word ∨
          (br = sim (chars x) word ∧ pyStrLt (chars bx) (chars x) = true)
        · have := (ih (some (sim (chars x) word, x)) (by simpa [bcAux, hcut, hrep] using h)).1
          exact Option.noConfusion this
        · have := (ih (some (br, bx)) (by simpa [bcAux, hcut, hrep] using h)).1
          exact Option.noConfusion this
    · have h' := ih acc (by simpa [bcAux, hcut] using h)
      refine ⟨h'.1, ?_⟩
      intro y hy
      rcases List.mem_cons.mp hy with rfl | hy'
      · exact not_le.mp hcut
      · exact h'.2 y hy'

lemma bcAux_spec (sim : List Char → List Char → ℚ) (cutoff : ℚ) (word : List Char) :
    ∀ (cands : List String) (acc : Option (ℚ × String)) (p : ℚ × String),
      (∀ q, acc = some q → cutoff ≤ q.1 ∧ sim (chars q.2) word = q.1) →
      bcAux sim cutoff word acc cands = some p →
      cutoff ≤ p.1 ∧ sim (chars p.2) word = p.1 ∧
        (p.2 ∈ cands ∨ acc = some p) ∧
        (∀ x ∈ cands, sim (chars x) word ≤ p.1) ∧
        (∀ q, acc = some q → q.1 ≤ p.1) := by
  intro cands
  induction cands with
  | nil =>
    intro acc p hacc h
    have hp := hacc p h
    refine ⟨hp.1, hp.2, Or.inr h, by simp, ?_⟩
    intro q hq
    have hap : acc = some p := h
    rw [hap] at hq
    cases hq
    exact le_refl _
  | cons x xs ih =>
    intro acc p hacc h
    by_cases hcut : cutoff ≤ sim (chars x) word
    · rcases acc with _ | ⟨br, bx⟩
      · have h' : bcAux sim cutoff word (some (sim (chars x) word, x)) xs = some p := by
          simpa [bcAux, hcut] using h
        have hacc' : ∀ q, some (sim (chars x) word, x) = some q →
            cutoff ≤ q.1 ∧ sim (chars q.2) word = q.1 := by
          intro q hq; cases hq; exact ⟨hcut, rfl⟩
        obtain ⟨h1, h2, h3, h4, h5⟩ := ih (some (sim (chars x) word, x)) p hacc' h'
        have hxle : sim (chars x) word ≤ p.1 := h5 (sim (chars x) word, x) rfl
        refine ⟨h1, h2, ?_, ?_, ?_⟩
        · rcases h3 with hmem | heq
          · exact Or.inl (List.mem_cons_of_mem x hmem)
          · cases heq
            exact Or.inl (List.mem_cons_self x xs)
        · intro y hy
          rcases List.mem_cons.mp hy with rfl | hy'
          · exact hxle
          · exact h4 y hy'
        · intro q hq
          exact Option.noConfusion hq
      · have hbr := hacc (br, bx) rfl
        by_cases hrep : br < sim (chars x) word ∨
            (br = sim (chars x) word ∧ pyStrLt (chars bx) (chars x) = true)
        · have h' : bcAux sim cutoff word (some (sim (chars x) word, x)) xs = some p := by
            simpa [bcAux, hcut, hrep] using h
          have hacc' : ∀ q, some (sim (chars x) word, x) = some q →
              cutoff ≤ q.1 ∧ sim (chars q.2) word = q.1 := by
            intro q hq; cases hq; exact ⟨hcut, rfl⟩
          obtain ⟨h1, h2, h3, h4, h5⟩ := ih (some (sim (chars x) word, x)) p hacc' h'
          have hxle : sim (chars x) word ≤ p.1 := h5 (sim (chars x) word, x) rfl
          have hbrle : br ≤ sim (chars x) word := by
            rcases hrep with hlt | ⟨heq, _⟩
            · exact le_of_lt hlt
            · exact le_of_eq heq
          refine ⟨h1, h2, ?_, ?_, ?_⟩
          · rcases h3 with hmem | heq
            · exact Or.inl (List.mem_cons_of_mem x hmem)
            · cases heq
              exact Or.inl (List.mem_cons_self x xs)
          · intro y hy
            rcases List.mem_cons.mp hy with rfl | hy'
            · exact hxle
            · exact h4 y hy'
          · intro q hq
            cases hq
            exact le_trans hbrle hxle
        · have h' : bcAux sim cutoff word (some (br, bx)) xs = some p := by
            simpa [bcAux, hcut, hrep] using h
          have hacc' : ∀ q, some (br, bx) = some q →
              cutoff ≤ q.1 ∧ sim (chars q.2) word = q.1 := by
            intro q hq; cases hq; exact hbr
          obtain ⟨h1, h2, h3, h4, h5⟩ := ih (some (br, bx)) p hacc' h'
          have hble : br ≤ p.1 := h5 (br, bx) rfl
          have hxle : sim (chars x) word ≤ br := by
            push_neg at hrep
            exact hrep.1
          refine ⟨h1, h2, ?_, ?_, ?_⟩
          · rcases h3 with hmem | heq
            · exact Or.inl (List.mem_cons_of_mem x hmem)
            · cases heq
              exact Or.inr rfl
          · intro y hy
            rcases List.mem_cons.mp hy with rfl | hy'
            · exact le_trans hxle hble
            · exact h4 y hy'
          · intro q hq
            cases hq
            exact hble
    · have h' : bcAux sim cutoff word acc xs = some p := by
        simpa [bcAux, hcut] using h
      obtain ⟨h1, h2, h3, h4, h5⟩ := ih acc p hacc h'
      refine ⟨h1, h2, ?_, ?_, h5⟩
      · rcases h3 with hmem | heq
        · exact Or.inl (List.mem_cons_of_mem x hmem)
        · exact Or.inr heq
      · intro y hy
        rcases List.mem_cons.mp hy with rfl | hy'
        · exact le_trans (le_of_lt (not_le.mp hcut)) h1
        · exact h4 y hy'

lemma bestClose_some_spec (sim : List Char → List Char → ℚ) (cutoff : ℚ)
    (word : List Char) (cands : List String) (p : ℚ × String)
    (h : bestClose sim cutoff word cands = some p) :
    cutoff ≤ p.1 ∧ sim (chars p.2) word = p.1 ∧ p.2 ∈ cands ∧
      ∀ x ∈ cands, sim (chars x) word ≤ p.1 := by
  obtain ⟨h1, h2, h3, h4, _⟩ :=
    bcAux_spec sim cutoff word cands none p (by intro q hq; exact Option.noConfusion hq) h
  refine ⟨h1, h2, ?_, h4⟩
  rcases h3 with hmem | heq
  · exact hmem
  · exact Option.noConfusion heq

lemma bestClose_none_forall (sim : List Char → List Char → ℚ) (cutoff : ℚ)
    (word : List Char) (cands : List String)
    (h : bestClose sim cutoff word cands = none) :
    ∀ x ∈ cands, sim (chars x) word < cutoff :=
  (bcAux_eq_none sim cutoff word cands none h).2

/-- C5: the classifier algorithm — for every similarity function, keyword
table and input: it lowercases the text and (1) returns the first category in
declared order one of whose keyword phrases occurs whole-word in the text;
(2) when no category has a whole-word hit and every keyword has similarity
below 0.6 to the whole text, it returns none; (3) when no category has a
whole-word hit but some keyword reaches 0.6, it returns the owning category
of a closest keyword: one with maximal similarity among all keywords, at
least 0.6. -/
theorem c5_classifier_characterization
    (sim : List Char → List Char → ℚ) (tbl : List (String × List String))
    (message : String) :
    (∀ pre cat post, tbl = pre ++ cat :: post →
      (∀ c ∈ pre, exactHit (chars (strLower message)) c.2 = false) →
      exactHit (chars (strLower message)) cat.2 = true →
      identifyIntentCore sim tbl message = some cat.1) ∧
    ((∀ c ∈ tbl, exactHit (chars (strLower message)) c.2 = false) →
      ((∀ kw ∈ allKeywords tbl, sim (chars kw) (chars (strLower message)) < 3 / 5) →
        identifyIntentCore sim tbl message = none) ∧
      (∀ kw0 ∈ allKeywords tbl, 3 / 5 ≤ sim (chars kw0) (chars (strLower message)) →
        ∃ kw cat, cat ∈ tbl ∧ kw ∈ cat.2 ∧
          3 / 5 ≤ sim (chars kw) (chars (strLower message)) ∧
          (∀ kw2 ∈ allKeywords tbl,
            sim (chars kw2) (chars (strLower message)) ≤
              sim (chars kw) (chars (strLower message))) ∧
          identifyIntentCore sim tbl message = some cat.1)) := by
  constructor
  · intro pre cat post htbl hpre hcat
    have hfind : tbl.find? (fun p => exactHit (chars (strLower message)) p.2) = some cat := by
      subst htbl
      have hnone : pre.find? (fun p => exactHit (chars (strLower message)) p.2) = none := by
        rw [List.find?_eq_none]
        intro c hc
        simp [hpre c hc]
      rw [List.find?_append, hnone,
        List.find?_cons_of_pos (p := fun p => exactHit (chars (strLower message)) p.2) post hcat]
      rfl
    simp only [identifyIntentCore, hfind]
  · intro hnoexact
    have hfind : tbl.find? (fun p => exactHit (chars (strLower message)) p.2) = none := by
      rw [List.find?_eq_none]
      intro c hc
      simp [hnoexact c hc]
    constructor
    · intro hlow
      have hbc : bestClose sim (3 / 5) (chars (strLower message)) (allKeywords tbl) = none := by
        apply bcAux_all_low
        intro x hx
        exact hlow x hx
      simp only [identifyIntentCore, hfind, hbc]
      rfl
    · intro kw0 hkw0 hge
      rcases hbc : bestClose sim (3 / 5) (chars (strLower message)) (allKeywords tbl) with
        _ | p
      · exact absurd hge (not_le.mpr (bestClose_none_forall _ _ _ _ hbc kw0 hkw0))
      · obtain ⟨h1, h2, h3, h4⟩ := bestClose_some_spec _ _ _ _ _ hbc
        have hmem : ∃ cat ∈ tbl, p.2 ∈ cat.2 := by
          have h3' : p.2 ∈ (tbl.map (fun q => q.2)).flatten := h3
          obtain ⟨l, hl, hpl⟩ := List.mem_flatten.mp h3'
          obtain ⟨c, hc, rfl⟩ := List.mem_map.mp hl
          exact ⟨c, hc, hpl⟩
      -- the owner lookup finds the first category containing the best keyword
        have hsome : (tbl.find? (fun q => q.2.contains p.2)).isSome = true := by
          rw [List.find?_isSome]
          obtain ⟨c, hc, hpc⟩ := hmem
          exact ⟨c, hc, List.elem_iff.mpr hpc⟩
        rcases hq : tbl.find? (fun q => q.2.contains p.2) with _ | q
        · rw [hq] at hsome
          exact Bool.noConfusion hsome
        · have hcont := List.find?_some hq
          have hkwmem : p.2 ∈ q.2 := by
            have helem : List.elem p.2 q.2 = true := hcont
            exact List.elem_iff.mp helem
          refine ⟨p.2, q, List.mem_of_find?_eq_some hq, hkwmem, ?_, ?_, ?_⟩
          · rw [h2]; exact h1
          · intro kw2 hkw2
            rw [h2]
            exact h4 kw2 hkw2
          · simp only [identifyIntentCore, hfind, hbc]
            show Option.map (fun x => x.1) (tbl.find? (fun r => r.2.contains p.2)) = some q.1
            rw [hq]
            rfl

theorem c5_classifier_characterization_witness :
    identifyIntentCore (fun _ _ => 0) [("greet", ["hallo"])] "hallo there" = some "greet" :=
  (c5_classifier_characterization (fun _ _ => 0) [("greet", ["hallo"])] "hallo there").1
    [] ("greet", ["hallo"]) [] rfl (by intro c hc; exact absurd hc (List.not_mem_nil c))
    (by with_unfolding_all decide)

/-! ### Dispatch facts used by the dialogue-state claims -/

/-- The fuzzy fallback can only classify a message as monthly_report through
one of the monthly_report keywords, and only at similarity ≥ 0.6; so a
message with no exact hit, all of whose monthly-keyword similarities are
below the cutoff, is never classified monthly_report. -/
lemma identify_intent_ne_monthly (m : String)
    (hex : serviceKeywords.find? (fun p => exactHit (chars (strLower m)) p.2) = none)
    (hlow : ∀ kw ∈ monthlyKeywords,
      difflibSim (chars kw) (chars (strLower m)) < 3 / 5) :
    identify_intent m ≠ some "monthly_report" := by
  intro heq
  rcases hbc : bestClose difflibSim (3 / 5) (chars (strLower m))
      (allKeywords serviceKeywords) with _ | p
  · have : identify_intent m = none := by
      simp only [identify_intent, identifyIntentCore, hex, hbc]
      rfl
    rw [this] at heq
    exact Option.noConfusion heq
  · have heq' : Option.map (fun x => x.1)
        (serviceKeywords.find? (fun r => r.2.contains p.2)) = some "monthly_report" := by
      rw [← heq]
      simp only [identify_intent, identifyIntentCore, hex, hbc]
      rfl
    rcases hq : serviceKeywords.find? (fun r => r.2.contains p.2) with _ | q
    · rw [hq] at heq'
      exact Option.noConfusion heq'
    · rw [hq] at heq'
      have hq1 : q.1 = "monthly_report" := Option.some.inj heq'
      have hqmem := List.mem_of_find?_eq_some hq
      have hqkw := List.find?_some hq
      have hq2 : q.2 = monthlyKeywords := by
        have hall : ∀ r ∈ serviceKeywords, r.1 = "monthly_report" →
            r.2 = monthlyKeywords := by decide
        exact hall q hqmem hq1
      have hpm : p.2 ∈ monthlyKeywords := by
        rw [← hq2]
        exact List.elem_iff.mp hqkw
      obtain ⟨h1, h2, _, _⟩ := bestClose_some_spec _ _ _ _ _ hbc
      rw [← h2] at h1
      exact absurd h1 (not_le.mpr (hlow p.2 hpm))

lemma process_message_affirm (env : BotEnv) (bank : BankState) (link : String)
    (user : Option String) (message : String)
    (hg : greetWords.any (fun w => strContains (chars (strLower message)) (chars w)) = false)
    (ht : thanksWords.any (fun w => strContains (chars (strLower message)) (chars w)) = false)
    (hmr : identify_intent (strLower message) ≠ some "monthly_report")
    (ha : strLower message ∈ affirmTokens) :
    process_message env ⟨bank, some link⟩ user message =
      ("Here\x27s your download link:\n\n" ++ link, ⟨bank, none⟩) := by
  simp [process_message, hg, ht, hmr, ha, linkStr]

lemma process_message_neg (env : BotEnv) (bank : BankState) (stash : Option String)
    (user : Option String) (message : String)
    (hg : greetWords.any (fun w => strContains (chars (strLower message)) (chars w)) = false)
    (ht : thanksWords.any (fun w => strContains (chars (strLower message)) (chars w)) = false)
    (hmr : identify_intent (strLower message) ≠ some "monthly_report")
    (hna : strLower message ∉ affirmTokens)
    (hn : strLower message ∈ negTokens) :
    process_message env ⟨bank, stash⟩ user message =
      ("Monthly report download cancelled. Let me know if you need anything else!",
        ⟨bank, none⟩) := by
  simp [process_message, hg, ht, hmr, hna, hn]

/-- C7 (amended): with a pending report stashed, the affirmative tokens
yes / y / download always return the stashed download reference and clear the
stash, and every negative token (no / n / cancel) always returns the
cancellation acknowledgment, clears the stash, and leaves the bank state
untouched.  The fourth affirmative token, "download report", is excluded: the
fuzzy classifier maps it to monthly_report, so the report branch intercepts
it first (see the counterexample). -/
theorem c7_confirmation_tokens (env : BotEnv) (bank : BankState) (link : String)
    (user : Option String) :
    (∀ m ∈ (["yes", "y", "download"] : List String),
      process_message env ⟨bank, some link⟩ user m =
        ("Here\x27s your download link:\n\n" ++ link, ⟨bank, none⟩)) ∧
    (∀ m ∈ (["no", "n", "cancel"] : List String),
      process_message env ⟨bank, some link⟩ user m =
        ("Monthly report download cancelled. Let me know if you need anything else!",
          ⟨bank, none⟩)) := by
  constructor
  · intro m hm
    fin_cases hm
    · exact process_message_affirm env bank link user "yes"
        (by with_unfolding_all decide) (by with_unfolding_all decide)
        (identify_intent_ne_monthly _ (by with_unfolding_all decide)
          (by with_unfolding_all decide))
        (by with_unfolding_all decide)
    · exact process_message_affirm env bank link user "y"
        (by with_unfolding_all decide) (by with_unfolding_all decide)
        (identify_intent_ne_monthly _ (by with_unfolding_all decide)
          (by with_unfolding_all decide))
        (by with_unfolding_all decide)
    · exact process_message_affirm env bank link user "download"
        (by with_unfolding_all decide) (by with_unfolding_all decide)
        (identify_intent_ne_monthly _ (by with_unfolding_all decide)
          (by with_unfolding_all decide))
        (by with_unfolding_all decide)
  · intro m hm
    fin_cases hm
    · exact process_message_neg env bank (some link) user "no"
        (by with_unfolding_all decide) (by with_unfolding_all decide)
        (identify_intent_ne_monthly _ (by with_unfolding_all decide)
          (by with_unfolding_all decide))
        (by with_unfolding_all decide) (by with_unfolding_all decide)
    · exact process_message_neg env bank (some link) user "n"
        (by with_unfolding_all decide) (by with_unfolding_all decide)
        (identify_intent_ne_monthly _ (by with_unfolding_all decide)
          (by with_unfolding_all decide))
        (by with_unfolding_all decide) (by with_unfolding_all decide)
    · exact process_message_neg env bank (some link) user "cancel"
        (by with_unfolding_all decide) (by with_unfolding_all decide)
        (identify_intent_ne_monthly _ (by with_unfolding_all decide)
          (by with_unfolding_all decide))
        (by with_unfolding_all decide) (by with_unfolding_all decide)

set_option maxHeartbeats 16000000 in
/-- C7 counterexample: in AwaitingReportConfirmation (stash = "LINK1", user
authenticated, one recent transaction), the affirmative token
"download report" does not yield the stashed download reference and does not
clear the stash: the fuzzy classifier maps it to monthly_report, so the
report branch runs again, replaces the stash with a fresh link, and answers
with the report summary prompt. -/
theorem c7_download_report_counterexample :
    process_message c7Env c7State (some "alice") "download report" =
      ("**📊 Monthly Report (d to d)**\n\n**Total Transactions:** 1\n**Total Credit:** ₹m\n**Total Debit:** ₹m\n**Net Change:** ₹m\n\nYour PDF report is ready! Would you like to download it now? (Yes/No)",
        ⟨c7Bank, some "LINK2"⟩) ∧
    (process_message c7Env c7State (some "alice") "download report").1 ≠
      "Here\x27s your download link:\n\nLINK1" ∧
    (process_message c7Env c7State (some "alice") "download report").2.downloadLink ≠
      none := by
  have h : process_message c7Env c7State (some "alice") "download report" =
      ("**📊 Monthly Report (d to d)**\n\n**Total Transactions:** 1\n**Total Credit:** ₹m\n**Total Debit:** ₹m\n**Net Change:** ₹m\n\nYour PDF report is ready! Would you like to download it now? (Yes/No)",
        ⟨c7Bank, some "LINK2"⟩) := by
    with_unfolding_all rfl
  refine ⟨h, ?_, ?_⟩
  · rw [h]
    decide
  · rw [h]
    decide

theorem c7_confirmation_tokens_witness :
    process_message
        ⟨[], 100, "G", "T", (fun _ => "B"), "F", "P", (fun _ => "BI"), (fun _ => "L"),
          (fun _ => "A"), (fun _ => "S"), (fun _ => "TL"), (fun _ _ => "O"),
          (fun _ _ => some "PDF"), (fun _ => "m"), (fun _ => "d")⟩
        ⟨⟨[], [], [], [], none⟩, some "THELINK"⟩ none "yes" =
      ("Here\x27s your download link:\n\nTHELINK", ⟨⟨[], [], [], [], none⟩, none⟩) :=
  (c7_confirmation_tokens
      ⟨[], 100, "G", "T", (fun _ => "B"), "F", "P", (fun _ => "BI"), (fun _ => "L"),
        (fun _ => "A"), (fun _ => "S"), (fun _ => "TL"), (fun _ _ => "O"),
        (fun _ _ => some "PDF"), (fun _ => "m"), (fun _ => "d")⟩
      ⟨[], [], [], [], none⟩ "THELINK" none).1 "yes" (by decide)

/-! ### Report builder (C9) -/

lemma list_sum_nonpos (l : List ℚ) (h : ∀ x ∈ l, x ≤ 0) : l.sum ≤ 0 := by
  induction l with
  | nil => simp
  | cons x xs ih =>
    simp only [List.sum_cons]
    have hx := h x (List.mem_cons_self x xs)
    have hxs := ih (fun y hy => h y (List.mem_cons_of_mem x hy))
    linarith

lemma abs_sum_nonpos (l : List ℚ) (h : ∀ x ∈ l, x ≤ 0) :
    |l.sum| = (l.map (fun x => |x|)).sum := by
  induction l with
  | nil => simp
  | cons x xs ih =>
    have hx := h x (List.mem_cons_self x xs)
    have hxs : ∀ y ∈ xs, y ≤ 0 := fun y hy => h y (List.mem_cons_of_mem x hy)
    have hs := list_sum_nonpos xs hxs
    simp only [List.sum_cons, List.map_cons]
    rw [abs_of_nonpos (by linarith), abs_of_nonpos hx, ← ih hxs,
      abs_of_nonpos hs]
    ring

/-- C9: on any transaction list whose dates do not exceed the reporting
endpoint (true of every list the program produces, since every date is a
past `datetime.now()`), the report builder keeps exactly the transactions in
the inclusive thirty-day window, reports totalCredit as the sum of the
positive amounts, totalDebit as the sum of absolute values of the negative
amounts, netChange as their difference, and totalCount as the number kept;
when the window is empty it reports no data.  The builder is a pure
function of the list — it performs no ledger mutation. -/
theorem c9_report_builder (now : Int) (txns : List Txn)
    (h : ∀ t ∈ txns, t.date ≤ now) :
    match buildReport now txns with
    | none => txns.filter (fun t => decide (now - 30 ≤ t.date ∧ t.date ≤ now)) = []
    | some r =>
        r.transactions = txns.filter (fun t => decide (now - 30 ≤ t.date ∧ t.date ≤ now)) ∧
        r.totalCredit =
          ((r.transactions.filter (fun t => decide (0 < t.amount))).map
            (fun t => t.amount)).sum ∧
        r.totalDebit =
          ((r.transactions.filter (fun t => decide (t.amount < 0))).map
            (fun t => |t.amount|)).sum ∧
        r.netChange = r.totalCredit - r.totalDebit ∧
        r.totalTransactions = r.transactions.length ∧
        r.startDate = now - 30 ∧ r.endDate = now := by
  have hfilter : txns.filter (fun t => decide (now - 30 ≤ t.date)) =
      txns.filter (fun t => decide (now - 30 ≤ t.date ∧ t.date ≤ now)) := by
    apply List.filter_congr
    intro t ht
    simp [h t ht]
  by_cases hempty : txns = []
  · subst hempty
    simp [buildReport]
  · by_cases hfe : txns.filter (fun t => decide (now - 30 ≤ t.date)) = []
    · have : buildReport now txns = none := by
        simp only [buildReport]
        rw [if_neg hempty, if_pos hfe]
      rw [this, ← hfilter]
      exact hfe
    · have hb : buildReport now txns = some
          ⟨now - 30, now, (txns.filter (fun t => decide (now - 30 ≤ t.date))).length,
            (((txns.filter (fun t => decide (now - 30 ≤ t.date))).filter
              (fun t => decide (0 < t.amount))).map (fun t => t.amount)).sum,
            |(((txns.filter (fun t => decide (now - 30 ≤ t.date))).filter
              (fun t => decide (t.amount < 0))).map (fun t => t.amount)).sum|,
            (((txns.filter (fun t => decide (now - 30 ≤ t.date))).filter
              (fun t => decide (0 < t.amount))).map (fun t => t.amount)).sum -
            |(((txns.filter (fun t => decide (now - 30 ≤ t.date))).filter
              (fun t => decide (t.amount < 0))).map (fun t => t.amount)).sum|,
            txns.filter (fun t => decide (now - 30 ≤ t.date))⟩ := by
        simp only [buildReport]
        rw [if_neg hempty, if_neg hfe]
      rw [hb]
      refine ⟨hfilter, rfl, ?_, rfl, rfl, rfl, rfl⟩
      have habs := abs_sum_nonpos
        (((txns.filter (fun t => decide (now - 30 ≤ t.date))).filter
          (fun t => decide (t.amount < 0))).map (fun t => t.amount))
        (by
          intro x hx
          obtain ⟨t, ht, rfl⟩ := List.mem_map.mp hx
          have := List.of_mem_filter ht
          simp at this
          linarith)
      rw [habs, List.map_map]
      rfl

theorem c9_report_builder_witness :
    (∀ t ∈ ([⟨95, "Salary", 50, 150⟩, ⟨60, "Transfer", -20, 100⟩] : List Txn),
      t.date ≤ (100 : Int)) ∧
    buildReport 100 [⟨95, "Salary", 50, 150⟩, ⟨60, "Transfer", -20, 100⟩] =
      some ⟨70, 100, 1, 50, 0, 50, [⟨95, "Salary", 50, 150⟩]⟩ := by
  constructor
  · decide
  · have h := c9_report_builder 100
      [⟨95, "Salary", 50, 150⟩, ⟨60, "Transfer", -20, 100⟩] (by decide)
    rcases hb : buildReport 100 [⟨95, "Salary", 50, 150⟩, ⟨60, "Transfer", -20, 100⟩]
      with _ | r
    · rw [hb] at h
      exact absurd h (by with_unfolding_all decide)
    · rw [hb] at h
      obtain ⟨h1, h2, h3, h4, h5, h6, h7⟩ := h
      rcases r with ⟨sd, ed, tc, cr, db, nc, tx⟩
      simp only at h1 h2 h3 h4 h5 h6 h7
      have htx : tx = [⟨95, "Salary", 50, 150⟩] := by
        rw [h1]
        with_unfolding_all decide
      subst htx
      have hcr : cr = 50 := by
        rw [h2]
        with_unfolding_all decide
      have hdb : db = 0 := by
        rw [h3]
        with_unfolding_all decide
      have htc : tc = 1 := h5
      have hnc : nc = 50 := by
        rw [h4, hcr, hdb]
        norm_num
      subst hcr hdb htc hnc h6 h7
      rfl

/-! ### Greeting substring precedence (C10) -/

/-- C10: whenever the lowercased message contains "hi" as a raw substring
(for example inside "history"), process_message takes the greeting branch:
it returns the greeting response (personalized when the user resolves),
changes no session state, and never reaches intent dispatch — regardless of
what the classifier would say. -/
theorem c10_greeting_shadows_intents (env : BotEnv) (st : DialogState)
    (user : Option String) (message : String)
    (h : strContains (chars (strLower message)) (chars "hi") = true) :
    process_message env st user message =
      (match (match user with
              | none => none
              | some u => get_user st.bank.users u) with
       | some u => ("Hello " ++ u.name ++ "! " ++ env.greetingResp, st)
       | none => (env.greetingResp, st)) := by
  have hg : greetWords.any
      (fun w => strContains (chars (strLower message)) (chars w)) = true := by
    apply List.any_eq_true.mpr
    exact ⟨"hi", by decide, h⟩
  simp only [process_message, hg, if_true]

/-! ### Ledger store helper lemmas -/

lemma gut_fields (synth : List Txn) (s : BankState) (username : String) :
    (get_user_transactions synth s username).2.users = s.users ∧
    (get_user_transactions synth s username).2.bills = s.bills ∧
    (get_user_transactions synth s username).2.txnHistory = s.txnHistory ∧
    (get_user_transactions synth s username).2.disk = s.disk := by
  cases h : get_user s.users username with
  | none => simp [get_user_transactions, h]
  | some u =>
    simp only [get_user_transactions, h]
    split <;> simp

lemma gut_fst (synth : List Txn) (s : BankState) (username : String) (u : UserData)
    (h : get_user s.users username = some u) :
    (get_user_transactions synth s username).1 =
      if s.sessionTxns = [] then synth else s.sessionTxns := by
  simp only [get_user_transactions, h]
  split <;> simp_all

lemma get_user_cons (p : String × UserData) (rest : List (String × UserData))
    (username : String) :
    get_user (p :: rest) username =
      if strLower p.1 == strLower username then some p.2 else get_user rest username := by
  by_cases hm : (strLower p.1 == strLower username) = true
  · simp [get_user, List.find?_cons_of_pos (p := fun q => strLower q.1 == strLower username)
      rest hm, hm]
  · simp [get_user, List.find?_cons_of_neg (p := fun q => strLower q.1 == strLower username)
      rest hm, hm]

lemma get_user_update (username : String) (b : ℚ) :
    ∀ (users : List (String × UserData)) (u : UserData),
      get_user users username = some u →
      get_user (updateUserBalance users username b) username =
        some { u with balance := b } := by
  intro users
  induction users with
  | nil =>
    intro u h
    simp [get_user] at h
  | cons p rest ih =>
    intro u h
    by_cases hm : (strLower p.1 == strLower username) = true
    · rw [get_user_cons, if_pos hm] at h
      cases h
      simp only [updateUserBalance]
      rw [if_pos hm, get_user_cons]
      simp [hm]
    · rw [get_user_cons, if_neg hm] at h
      simp only [updateUserBalance]
      rw [if_neg hm, get_user_cons, if_neg hm]
      exact ih u h

/-- Full field characterization of one add_transaction call on an existing
account. -/
lemma add_transaction_fields (env : TxnEnv) (s : BankState)
    (username description : String) (amount : ℚ) (u : UserData)
    (h : get_user s.users username = some u) :
    (add_transaction env s username description amount).1.users =
      updateUserBalance s.users username (u.balance + amount) ∧
    (add_transaction env s username description amount).1.sessionTxns =
      ⟨env.now, description, amount, u.balance + amount⟩ ::
        (get_user_transactions env.synth s username).1 ∧
    (add_transaction env s username description amount).1.bills = s.bills ∧
    (add_transaction env s username description amount).1.txnHistory =
      s.txnHistory ++ [(description, amount)] ∧
    (add_transaction env s username description amount).2 = env.saveOk ∧
    (add_transaction env s username description amount).1.disk =
      (if env.saveOk then
        some ⟨updateUserBalance s.users username (u.balance + amount), s.bills,
          s.txnHistory ++ [(description, amount)]⟩
       else s.disk) := by
  obtain ⟨hu, hb, hh, hd⟩ := gut_fields env.synth s username
  cases hok : env.saveOk <;>
    simp [add_transaction, h, save_data, hok, hu, hb, hh, hd]

lemma add_transaction_missing (env : TxnEnv) (s : BankState)
    (username description : String) (amount : ℚ)
    (h : get_user s.users username = none) :
    add_transaction env s username description amount = (s, false) := by
  simp [add_transaction, h]

theorem c10_greeting_shadows_intents_witness :
    strContains (chars (strLower "transaction history")) (chars "hi") = true ∧
    identify_intent "transaction history" = some "transaction_history" ∧
    process_message c10Env c10State (some "alice") "transaction history" =
      ("Hello Alice! G", c10State) :=
  ⟨by decide, by with_unfolding_all rfl,
    c10_greeting_shadows_intents c10Env c10State (some "alice") "transaction history"
      (by decide)⟩

/-- C1 (amended): add_transaction never tests the sign of balance + amount.
For an existing account it always applies: balance becomes balance + amount,
the new transaction (with that snapshot) is prepended, and the returned
flag is just the persistence outcome; only a username that resolves to no
account is rejected, leaving the store untouched.  The insufficient-funds
guard of the spec lives in the UI callers, which compare amount against the
balance before invoking add_transaction. -/
theorem c1_add_transaction_applies_unconditionally (env : TxnEnv) (s : BankState)
    (username description : String) (amount : ℚ) :
    (∀ u, get_user s.users username = some u →
      get_user (add_transaction env s username description amount).1.users username =
        some { u with balance := u.balance + amount } ∧
      (add_transaction env s username description amount).1.sessionTxns =
        ⟨env.now, description, amount, u.balance + amount⟩ ::
          (get_user_transactions env.synth s username).1 ∧
      (add_transaction env s username description amount).2 = env.saveOk) ∧
    (get_user s.users username = none →
      add_transaction env s username description amount = (s, false)) := by
  constructor
  · intro u h
    obtain ⟨hu, hsess, _, _, hflag, _⟩ :=
      add_transaction_fields env s username description amount u h
    refine ⟨?_, hsess, hflag⟩
    rw [hu]
    exact get_user_update username (u.balance + amount) s.users u h
  · intro h
    exact add_transaction_missing env s username description amount h

theorem c1_add_transaction_applies_unconditionally_witness :
    get_user (add_transaction ⟨[], 5, true⟩ c1Bank "alice" "X" (-300)).1.users "alice" =
      some ⟨"Alice", "pw", 100 + -300⟩ :=
  ((c1_add_transaction_applies_unconditionally ⟨[], 5, true⟩ c1Bank "alice" "X"
      (-300)).1 ⟨"Alice", "pw", 100⟩ (by with_unfolding_all decide)).1

/-- C2 (amended): add_bill_payment is the composition of an
add_transaction debit (which itself persists) with bill removal and a second
persistence step; it is atomic only when both saves succeed.  When the
debit's save fails, the call reports failure but the in-memory balance and
transaction log are already updated (only the bills and disk are unchanged);
when the second save fails, the debit is persisted while the bill removal
exists only in memory. -/
theorem c2_bill_payment_characterization (env : TxnEnv) (ok2 : Bool) (s : BankState)
    (username billName : String) (amount : ℚ) (u : UserData)
    (h : get_user s.users username = some u) :
    (env.saveOk = true → ok2 = true →
      (add_bill_payment env ok2 s username billName amount).2 = true ∧
      get_user (add_bill_payment env ok2 s username billName amount).1.users username =
        some { u with balance := u.balance + -amount } ∧
      (add_bill_payment env ok2 s username billName amount).1.bills =
        s.bills.filter (fun b => b.name != billName) ∧
      (add_bill_payment env ok2 s username billName amount).1.disk =
        some ⟨(add_bill_payment env ok2 s username billName amount).1.users,
          (add_bill_payment env ok2 s username billName amount).1.bills,
          (add_bill_payment env ok2 s username billName amount).1.txnHistory⟩) ∧
    (env.saveOk = false →
      (add_bill_payment env ok2 s username billName amount).2 = false ∧
      get_user (add_bill_payment env ok2 s username billName amount).1.users username =
        some { u with balance := u.balance + -amount } ∧
      (add_bill_payment env ok2 s username billName amount).1.sessionTxns =
        ⟨env.now, "Bill Payment: " ++ billName, -amount, u.balance + -amount⟩ ::
          (get_user_transactions env.synth s username).1 ∧
      (add_bill_payment env ok2 s username billName amount).1.bills = s.bills ∧
      (add_bill_payment env ok2 s username billName amount).1.disk = s.disk) ∧
    (env.saveOk = true → ok2 = false →
      (add_bill_payment env ok2 s username billName amount).2 = false ∧
      (add_bill_payment env ok2 s username billName amount).1.bills =
        s.bills.filter (fun b => b.name != billName) ∧
      (add_bill_payment env ok2 s username billName amount).1.disk =
        some ⟨(add_bill_payment env ok2 s username billName amount).1.users, s.bills,
          (add_bill_payment env ok2 s username billName amount).1.txnHistory⟩) := by
  obtain ⟨hu, hsess, hb, hh, hflag, hd⟩ :=
    add_transaction_fields env s username ("Bill Payment: " ++ billName) (-amount) u h
  have hget := get_user_update username (u.balance + -amount) s.users u h
  rw [← hu] at hget
  refine ⟨?_, ?_, ?_⟩
  · intro hok1 hok2
    subst hok2
    rw [hok1] at hflag
    simp [add_bill_payment, h, hflag, save_data, hget, hb]
  · intro hok1
    rw [hok1] at hflag hd
    simp only [if_false, Bool.false_eq_true] at hd
    simp [add_bill_payment, h, hflag, hget, hsess, hb, hd]
  · intro hok1 hok2
    subst hok2
    rw [hok1] at hflag hd
    simp only [if_true] at hd
    simp [add_bill_payment, h, hflag, save_data, hb, hd, hu, hh]

theorem c2_bill_payment_characterization_witness :
    (add_bill_payment ⟨[], 5, true⟩ true c2Bank "alice" "Electric" 60).2 = true ∧
    get_user (add_bill_payment ⟨[], 5, true⟩ true c2Bank "alice" "Electric" 60).1.users
      "alice" = some ⟨"Alice", "pw", 100 + -60⟩ :=
  ⟨((c2_bill_payment_characterization ⟨[], 5, true⟩ true c2Bank "alice" "Electric" 60
      ⟨"Alice", "pw", 100⟩ (by with_unfolding_all decide)).1 rfl rfl).1,
   ((c2_bill_payment_characterization ⟨[], 5, true⟩ true c2Bank "alice" "Electric" 60
      ⟨"Alice", "pw", 100⟩ (by with_unfolding_all decide)).1 rfl rfl).2.1⟩

/-! ### Balance conservation over call sequences (C4) -/

lemma applyCalls_spec (synth : List Txn) (tname : String) :
    ∀ (calls : List TxnCall) (s : BankState) (u : UserData),
      s.users = [(tname, u)] →
      (applyCalls synth s calls).users =
        [(tname, { u with balance := u.balance + (appliedAmounts tname calls).sum })] ∧
      (appliedAmounts tname calls = [] → applyCalls synth s calls = s) ∧
      (appliedAmounts tname calls ≠ [] →
        ((applyCalls synth s calls).sessionTxns.head?).map (fun t => t.balance) =
          some (u.balance + (appliedAmounts tname calls).sum)) := by
  intro calls
  induction calls with
  | nil =>
    intro s u hs
    refine ⟨?_, fun _ => rfl, fun hne => absurd rfl hne⟩
    simp [applyCalls, hs, appliedAmounts]
  | cons c rest ih =>
    intro s u hs
    have hfold : applyCalls synth s (c :: rest) =
        applyCalls synth
          (add_transaction ⟨synth, c.now, c.saveOk⟩ s c.username c.description c.amount).1
          rest := rfl
    by_cases hm : (strLower tname == strLower c.username) = true
    · have hgu : get_user s.users c.username = some u := by
        rw [hs, get_user_cons, if_pos hm]
      obtain ⟨hu, hsess, _, _, _, _⟩ :=
        add_transaction_fields ⟨synth, c.now, c.saveOk⟩ s c.username c.description
          c.amount u hgu
      have hupd : updateUserBalance s.users c.username (u.balance + c.amount) =
          [(tname, { u with balance := u.balance + c.amount })] := by
        rw [hs]
        simp only [updateUserBalance]
        rw [if_pos hm]
      rw [hupd] at hu
      have hamts : appliedAmounts tname (c :: rest) =
          c.amount :: appliedAmounts tname rest := by
        simp [appliedAmounts, List.filter_cons, hm]
      obtain ⟨ih1, ih2, ih3⟩ := ih
        (add_transaction ⟨synth, c.now, c.saveOk⟩ s c.username c.description c.amount).1
        { u with balance := u.balance + c.amount } hu
      refine ⟨?_, ?_, ?_⟩
      · rw [hfold, ih1, hamts]
        simp only [List.sum_cons]
        rw [add_assoc]
      · intro hnil
        rw [hamts] at hnil
        exact absurd hnil (List.cons_ne_nil _ _)
      · intro _
        by_cases hrest : appliedAmounts tname rest = []
        · rw [hfold, ih2 hrest, hsess, hamts, hrest]
          simp
        · have := ih3 hrest
          rw [hfold, this, hamts]
          simp only [List.sum_cons]
          rw [add_assoc]
    · have hgu : get_user s.users c.username = none := by
        rw [hs, get_user_cons, if_neg hm]
        rfl
      have hnone :=
        add_transaction_missing ⟨synth, c.now, c.saveOk⟩ s c.username c.description
          c.amount hgu
      have hamts : appliedAmounts tname (c :: rest) = appliedAmounts tname rest := by
        simp [appliedAmounts, List.filter_cons, hm]
      rw [hfold, hnone]
      rw [hamts]
      exact ih s u hs

/-- C4: starting from a bank whose single account is keyed `tname`, any
finite sequence of add_transaction calls leaves that account's balance at
its initial value plus the sum of the signed amounts of the applied calls
(calls addressed to a nonexistent user are rejected and contribute zero),
and whenever at least one call applied, the balance snapshot of the newest
transaction in the session sequence equals the current balance. -/
theorem c4_balance_conservation (synth : List Txn) (tname : String) (u : UserData)
    (calls : List TxnCall) (s : BankState) (hs : s.users = [(tname, u)]) :
    get_user (applyCalls synth s calls).users tname =
      some { u with balance := u.balance + (appliedAmounts tname calls).sum } ∧
    (appliedAmounts tname calls ≠ [] →
      ((applyCalls synth s calls).sessionTxns.head?).map (fun t => t.balance) =
        some (u.balance + (appliedAmounts tname calls).sum)) := by
  obtain ⟨h1, _, h3⟩ := applyCalls_spec synth tname calls s u hs
  refine ⟨?_, h3⟩
  rw [h1, get_user_cons]
  simp

theorem c4_balance_conservation_witness :
    get_user
      (BankState.users
        (applyCalls [] ⟨[("alice", ⟨"Alice", "pw", 1000⟩)], [], [], [], none⟩
          [⟨"alice", "Transfer to X", -200, 5, true⟩, ⟨"ghost", "noop", -999, 6, true⟩]))
      "alice" =
      some ⟨"Alice", "pw", 1000 + (-200 + 0)⟩ :=
  (c4_balance_conservation [] "alice" ⟨"Alice", "pw", 1000⟩
    [⟨"alice", "Transfer to X", -200, 5, true⟩, ⟨"ghost", "noop", -999, 6, true⟩]
    ⟨[("alice", ⟨"Alice", "pw", 1000⟩)], [], [], [], none⟩ rfl).1

/-! ### Newest-first ordering (C8) -/

/-- C8: every ledger mutation inserts its new transaction at the head of the
session sequence — never at the tail — and, for any finite call sequence
whose wall-clock times are nondecreasing and bound the dates already in the
store (every `datetime.now()` is later than all existing timestamps), the
session sequence stays ordered newest-first. -/
theorem c8_newest_first :
    (∀ (env : TxnEnv) (s : BankState) (username description : String) (amount : ℚ)
        (u : UserData), get_user s.users username = some u →
      (add_transaction env s username description amount).1.sessionTxns =
        ⟨env.now, description, amount, u.balance + amount⟩ ::
          (get_user_transactions env.synth s username).1) ∧
    (∀ (synth : List Txn) (calls : List TxnCall) (s : BankState),
      sortedDesc s.sessionTxns → sortedDesc synth →
      (∀ c ∈ calls, ∀ t ∈ s.sessionTxns, t.date ≤ c.now) →
      (∀ c ∈ calls, ∀ t ∈ synth, t.date ≤ c.now) →
      calls.Pairwise (fun c c2 => c.now ≤ c2.now) →
      sortedDesc (applyCalls synth s calls).sessionTxns) := by
  constructor
  · intro env s username description amount u h
    exact (add_transaction_fields env s username description amount u h).2.1
  · intro synth calls
    induction calls with
    | nil =>
      intro s hsort _ _ _ _
      exact hsort
    | cons c rest ih =>
      intro s hsort hsynth hbound hbsynth hpw
      have hfold : applyCalls synth s (c :: rest) =
          applyCalls synth
            (add_transaction ⟨synth, c.now, c.saveOk⟩ s c.username c.description
              c.amount).1 rest := rfl
      rw [hfold]
      rcases List.pairwise_cons.mp hpw with ⟨hcrest, hpwrest⟩
      cases hgu : get_user s.users c.username with
      | none =>
        rw [add_transaction_missing ⟨synth, c.now, c.saveOk⟩ s c.username c.description
          c.amount hgu]
        exact ih s hsort hsynth
          (fun c2 hc2 t ht => hbound c2 (List.mem_cons_of_mem c hc2) t ht)
          (fun c2 hc2 t ht => hbsynth c2 (List.mem_cons_of_mem c hc2) t ht) hpwrest
      | some u =>
        obtain ⟨_, hsess, _, _, _, _⟩ :=
          add_transaction_fields ⟨synth, c.now, c.saveOk⟩ s c.username c.description
            c.amount u hgu
        have hfst := gut_fst synth s c.username u hgu
        have hread_sub : ∀ t ∈ (get_user_transactions synth s c.username).1,
            t ∈ s.sessionTxns ∨ t ∈ synth := by
          intro t ht
          rw [hfst] at ht
          by_cases hse : s.sessionTxns = []
          · rw [if_pos hse] at ht
            exact Or.inr ht
          · rw [if_neg hse] at ht
            exact Or.inl ht
        have hread_sorted : sortedDesc (get_user_transactions synth s c.username).1 := by
          rw [hfst]
          by_cases hse : s.sessionTxns = []
          · rw [if_pos hse]
            exact hsynth
          · rw [if_neg hse]
            exact hsort
        have hnew_sorted :
            sortedDesc (add_transaction ⟨synth, c.now, c.saveOk⟩ s c.username
              c.description c.amount).1.sessionTxns := by
          rw [hsess]
          apply List.chain'_cons'.mpr
          refine ⟨?_, hread_sorted⟩
          intro t ht
          have htmem : t ∈ (get_user_transactions synth s c.username).1 :=
            List.mem_of_mem_head? ht
          rcases hread_sub t htmem with hmem | hmem
          · exact hbound c (List.mem_cons_self c rest) t hmem
          · exact hbsynth c (List.mem_cons_self c rest) t hmem
        apply ih _ hnew_sorted hsynth
        · intro c2 hc2 t ht
          rw [hsess] at ht
          rcases List.mem_cons.mp ht with rfl | ht'
          · exact hcrest c2 hc2
          · rcases hread_sub t ht' with hmem | hmem
            · exact hbound c2 (List.mem_cons_of_mem c hc2) t hmem
            · exact hbsynth c2 (List.mem_cons_of_mem c hc2) t hmem
        · intro c2 hc2 t ht
          exact hbsynth c2 (List.mem_cons_of_mem c hc2) t ht
        · exact hpwrest

theorem c8_newest_first_witness :
    (add_transaction ⟨[], 9, true⟩ c1Bank "alice" "Deposit" 25).1.sessionTxns =
      ⟨9, "Deposit", 25, 100 + 25⟩ :: (get_user_transactions [] c1Bank "alice").1 :=
  c8_newest_first.1 ⟨[], 9, true⟩ c1Bank "alice" "Deposit" 25 ⟨"Alice", "pw", 100⟩
    (by with_unfolding_all decide)

end CGBank
